import Mathlib

set_option linter.unusedVariables false
set_option linter.unnecessarySimpa false

/-!
Verification of the Dorkwright crawler/downloader (`src/dorkwright.py`).

Shallow embedding: Python `str` values are Lean `String`s (lists of Unicode
characters), Python byte strings are `List Nat` (one `Nat` per byte, each
`< 256`).  The browser session of the crawler and the HTTP layer of the
downloader are modelled as oracles passed in as function arguments; every
function of the repository that the claims mention is translated to a Lean
definition of the same name.
-/

/-! ### Character helpers -/

/-- ASCII letter test: Python `c.isascii() and c.isalpha()` restricted to
one character. -/
def pyIsAsciiAlpha (c : Char) : Bool :=
  ('a' ≤ c && c ≤ 'z') || ('A' ≤ c && c ≤ 'Z')

/-- Membership in the character class `[a-z0-9]` used by the two extension
regexes of `is_file_link` (the URL is lowercased before matching). -/
def isExtChar (c : Char) : Bool :=
  ('a' ≤ c && c ≤ 'z') || ('0' ≤ c && c ≤ '9')

/-- The characters allowed in a URL scheme by `urllib.parse`
(`scheme_chars`): ASCII letters, digits, `+`, `-` and `.`. -/
def isSchemeChar (c : Char) : Bool :=
  pyIsAsciiAlpha c || ('0' ≤ c && c ≤ '9') || c == '+' || c == '-' || c == '.'

/-- Lean `Char.toLower` applied characterwise; model of Python `str.lower()`
(which agrees on ASCII, the range all comparisons here are about). -/
def lowerStr (s : String) : String :=
  String.mk (s.data.map Char.toLower)

/-! ### Generic list-of-characters utilities (models of Python `str`
operations used by the source) -/

/-- Predicate `listStarts pre l`: does `l` start with `pre`?  Model of Python
`str.startswith` on the character level. -/
def listStarts : List Char → List Char → Bool
  | [], _ => true
  | _ :: _, [] => false
  | a :: pre, b :: l => a == b && listStarts pre l

/-- Predicate `listHasSub needle hay`: does `needle` occur contiguously in `hay`?
Model of Python's `needle in hay` on strings. -/
def listHasSub (needle : List Char) : List Char → Bool
  | [] => needle.isEmpty
  | c :: t => listStarts needle (c :: t) || listHasSub needle t

/-- Split at the first occurrence of delimiter `d` (Python
`s.split(d, 1)`); `none` as second component when `d` does not occur. -/
def splitFirst (d : Char) (cs : List Char) : List Char × Option (List Char) :=
  let pre := cs.takeWhile (fun c => c ≠ d)
  if pre.length < cs.length then (pre, some (cs.drop (pre.length + 1)))
  else (cs, none)

/-! ### `urllib.parse.urlparse` — the part of the Python standard library
the source relies on.  Translated from CPython's `urlsplit`/`urlparse`
(`Lib/urllib/parse.py`): left-strip of C0-control-or-space characters,
removal of tab/CR/LF, scheme detection, netloc split, fragment split,
query split, and the `;parameters` split of `urlparse`.  The exceptional
paths for malformed IPv6 bracket hosts (which raise `ValueError`) are not
modelled; no input considered below contains brackets. -/

structure UrlParts where
  scheme : String
  netloc : String
  path : String
  query : String
  fragment : String
  deriving Repr, DecidableEq

/-- Scheme detection of `urlsplit`: chars before the first `:` form the
scheme when the first is an ASCII letter and all are in `scheme_chars`;
the scheme is lowercased and the `:` consumed. -/
def pySplitScheme (cs : List Char) : List Char × List Char :=
  let pre := cs.takeWhile (fun c => c ≠ ':')
  if pre.length < cs.length && !pre.isEmpty &&
      pyIsAsciiAlpha (pre.headD ' ') && pre.all isSchemeChar then
    (pre.map Char.toLower, cs.drop (pre.length + 1))
  else ([], cs)

/-- Model of `_splitnetloc`: after a leading `//`, the netloc runs to the first of
`/`, `?`, `#` (the delimiter stays in the remainder). -/
def pySplitNetloc (cs : List Char) : List Char × List Char :=
  if listStarts ['/', '/'] cs then
    let rest := cs.drop 2
    let nl := rest.takeWhile (fun c => c ≠ '/' && c ≠ '?' && c ≠ '#')
    (nl, rest.drop nl.length)
  else ([], cs)

/-- The schemes for which `urlparse` splits `;parameters` off the path
(`uses_params`, which contains the empty scheme). -/
def usesParams : List String :=
  ["", "ftp", "hdl", "prospero", "http", "imap", "mailto", "mms", "news",
   "nntp", "rtsp", "rtspu", "sftp", "shttp", "sip", "sips", "snews", "svn",
   "svn+ssh", "telnet", "wais", "https"]

/-- Model of `_splitparams`: drop everything from the first `;` of the last path
segment onward (only called when a `;` is present). -/
def pySplitParams (cs : List Char) : List Char :=
  let rev := cs.reverse
  let sufRev := rev.takeWhile (fun c => c ≠ '/')
  if sufRev.length < rev.length then
    -- a '/' is present: look for ';' only in the final segment
    let suf := sufRev.reverse
    let pre := cs.take (cs.length - suf.length)
    let keep := suf.takeWhile (fun c => c ≠ ';')
    if keep.length < suf.length then pre ++ keep else cs
  else
    let keep := cs.takeWhile (fun c => c ≠ ';')
    if keep.length < cs.length then keep else cs

/-- Model of `urllib.parse.urlparse` (scheme, netloc, path, query,
fragment; the `params` component is dropped from the path exactly as
`urlparse` does). -/
def pyUrlparse (s : String) : UrlParts :=
  let cs1 := s.data.dropWhile (fun c => c.toNat ≤ 0x20)
  let cs2 := cs1.filter (fun c => c ≠ '\t' && c ≠ '\r' && c ≠ '\n')
  let (sch, r1) := pySplitScheme cs2
  let (nl, r2) := pySplitNetloc r1
  let (r3, frag) := splitFirst '#' r2
  let (r4, qry) := splitFirst '?' r3
  let path :=
    if r4.any (fun c => c == ';') && usesParams.contains (String.mk sch) then
      pySplitParams r4
    else r4
  ⟨String.mk sch, String.mk nl, String.mk path,
   String.mk (qry.getD []), String.mk (frag.getD [])⟩

/-! ### `is_file_link` (src/dorkwright.py lines 209–237) -/

/-- Scan for the regex `\.[a-z0-9]{2,5}$` (`re.search` on the path): some
suffix starts with `.` and the rest is 2–5 chars of `[a-z0-9]` running to
the end of the string. -/
def scanExtEnd : List Char → Bool
  | [] => false
  | c :: t =>
    (c == '.' && t.all isExtChar && decide (2 ≤ t.length) &&
      decide (t.length ≤ 5)) || scanExtEnd t

/-- After a `.`: is there a match of `[a-z0-9]{2,5}[?#]` starting here? -/
def matchAlnumThenQH (t : List Char) : Bool :=
  [2, 3, 4, 5].any fun j =>
    decide (j ≤ t.length) && (t.take j).all isExtChar &&
      (match t.drop j with
       | d :: _ => d == '?' || d == '#'
       | [] => false)

/-- Scan for the regex `\.[a-z0-9]{2,5}[?#]` (`re.search` on the full
lowercased URL). -/
def scanExtQH : List Char → Bool
  | [] => false
  | c :: t => (c == '.' && matchAlnumThenQH t) || scanExtQH t

/-- Model of `is_file_link(url)`: lowercase the URL, take the `urlparse` path;
reject an empty path or one ending in `/`; accept when the path matches
`\.[a-z0-9]{2,5}$` or the full lowered URL matches `\.[a-z0-9]{2,5}[?#]`
(the source's two early `return True`s are merged into one `||`). -/
def is_file_link (url : String) : Bool :=
  let urlLower := lowerStr url
  let path := (pyUrlparse urlLower).path
  if path == "" || path.data.getLast? == some '/' then false
  else scanExtEnd path.data || scanExtQH urlLower.data

/-! ### `urllib.parse.unquote` — percent-decoding.

CPython decodes each maximal run of `%XX` escapes (with the literal ASCII
characters between them) as a UTF-8 byte string using the `replace` error
handler; characters that are not part of a valid `%XX` escape pass
through.  Modelled here byte-for-byte: `utf8Replace` is UTF-8 decoding
emitting U+FFFD for each maximal invalid subpart. -/

/-- Value of a hexadecimal digit (as in urllib's `_hextobyte` table),
`none` for every other character; written over raw code points. -/
def hexVal? (c : Char) : Option Nat :=
  let n := c.toNat
  if 48 ≤ n ∧ n ≤ 57 then some (n - 48)
  else if 97 ≤ n ∧ n ≤ 102 then some (n - 87)
  else if 65 ≤ n ∧ n ≤ 70 then some (n - 55)
  else none

/-- The U+FFFD replacement character. -/
def replChar : Char := Char.ofNat 0xFFFD

/-- Is `b` a UTF-8 continuation byte in the closed range `[lo, hi]`? -/
def contIn (lo hi b : Nat) : Bool := decide (lo ≤ b) && decide (b ≤ hi)

/-- UTF-8 decoding with the `replace` error handler: one U+FFFD per
maximal invalid subpart (a valid prefix of a multi-byte sequence is
consumed together).  The first argument is fuel for structural recursion;
every step consumes at least one byte, so fuel equal to the length of the
byte list (supplied by `utf8Replace`) never runs out. -/
def utf8ReplaceGo : Nat → List Nat → List Char
  | 0, _ => []
  | _, [] => []
  | fuel + 1, b :: bs =>
    if b < 0x80 then Char.ofNat b :: utf8ReplaceGo fuel bs
    else if contIn 0xC2 0xDF b then
      match bs with
      | b2 :: rest =>
        if contIn 0x80 0xBF b2 then
          Char.ofNat ((b - 0xC0) * 64 + (b2 - 0x80)) :: utf8ReplaceGo fuel rest
        else replChar :: utf8ReplaceGo fuel bs
      | [] => [replChar]
    else if contIn 0xE0 0xEF b then
      -- first continuation range depends on the lead byte
      let lo1 := if b = 0xE0 then 0xA0 else 0x80
      let hi1 := if b = 0xED then 0x9F else 0xBF
      match bs with
      | b2 :: rest2 =>
        if contIn lo1 hi1 b2 then
          match rest2 with
          | b3 :: rest3 =>
            if contIn 0x80 0xBF b3 then
              Char.ofNat ((b - 0xE0) * 4096 + (b2 - 0x80) * 64 + (b3 - 0x80)) ::
                utf8ReplaceGo fuel rest3
            else replChar :: utf8ReplaceGo fuel rest2
          | [] => [replChar]
        else replChar :: utf8ReplaceGo fuel bs
      | [] => [replChar]
    else if contIn 0xF0 0xF4 b then
      let lo1 := if b = 0xF0 then 0x90 else 0x80
      let hi1 := if b = 0xF4 then 0x8F else 0xBF
      match bs with
      | b2 :: rest2 =>
        if contIn lo1 hi1 b2 then
          match rest2 with
          | b3 :: rest3 =>
            if contIn 0x80 0xBF b3 then
              match rest3 with
              | b4 :: rest4 =>
                if contIn 0x80 0xBF b4 then
                  Char.ofNat ((b - 0xF0) * 262144 + (b2 - 0x80) * 4096 +
                      (b3 - 0x80) * 64 + (b4 - 0x80)) :: utf8ReplaceGo fuel rest4
                else replChar :: utf8ReplaceGo fuel rest3
              | [] => [replChar]
            else replChar :: utf8ReplaceGo fuel rest2
          | [] => [replChar]
        else replChar :: utf8ReplaceGo fuel bs
      | [] => [replChar]
    else replChar :: utf8ReplaceGo fuel bs

/-- Model of `bytes.decode("utf-8", errors="replace")`. -/
def utf8Replace (bs : List Nat) : List Char :=
  utf8ReplaceGo bs.length bs

/-- Strict UTF-8 decoding (`bytes.decode("utf-8")` with the default
`strict` handler): `none` on any invalid byte sequence. -/
def utf8Strict : List Nat → Option (List Char)
  | [] => some []
  | b :: bs =>
    if b < 0x80 then (utf8Strict bs).map (Char.ofNat b :: ·)
    else if contIn 0xC2 0xDF b then
      match bs with
      | b2 :: rest =>
        if contIn 0x80 0xBF b2 then
          (utf8Strict rest).map (Char.ofNat ((b - 0xC0) * 64 + (b2 - 0x80)) :: ·)
        else none
      | [] => none
    else if contIn 0xE0 0xEF b then
      let lo1 := if b = 0xE0 then 0xA0 else 0x80
      let hi1 := if b = 0xED then 0x9F else 0xBF
      match bs with
      | b2 :: b3 :: rest =>
        if contIn lo1 hi1 b2 && contIn 0x80 0xBF b3 then
          (utf8Strict rest).map
            (Char.ofNat ((b - 0xE0) * 4096 + (b2 - 0x80) * 64 + (b3 - 0x80)) :: ·)
        else none
      | _ => none
    else if contIn 0xF0 0xF4 b then
      let lo1 := if b = 0xF0 then 0x90 else 0x80
      let hi1 := if b = 0xF4 then 0x8F else 0xBF
      match bs with
      | b2 :: b3 :: b4 :: rest =>
        if contIn lo1 hi1 b2 && contIn 0x80 0xBF b3 && contIn 0x80 0xBF b4 then
          (utf8Strict rest).map
            (Char.ofNat ((b - 0xF0) * 262144 + (b2 - 0x80) * 4096 +
              (b3 - 0x80) * 64 + (b4 - 0x80)) :: ·)
        else none
      | _ => none
    else none

/-- Model of `str.encode("latin-1")`: every code point must be `< 256`. -/
def encodeLatin1 (cs : List Char) : Option (List Nat) :=
  if cs.all (fun c => decide (c.toNat ≤ 0xFF)) then some (cs.map Char.toNat)
  else none

/-- Worker for `unquote`: `acc` holds the bytes of the current run of
`%XX` escapes and intervening literal ASCII characters; each run is
flushed through `utf8Replace` exactly as CPython decodes an ASCII chunk
as one byte string.  Fuel (first argument) makes the recursion
structural; every step consumes at least one character, so fuel equal to
the length of the character list never runs out. -/
def unquoteGo : Nat → List Char → List Nat → List Char
  | 0, _, acc => utf8Replace acc.reverse
  | _, [], acc => utf8Replace acc.reverse
  | fuel + 1, c :: rest, acc =>
    if c = '%' then
      match rest with
      | a :: b :: rest2 =>
        match hexVal? a, hexVal? b with
        | some x, some y => unquoteGo fuel rest2 ((16 * x + y) :: acc)
        | _, _ => utf8Replace acc.reverse ++ '%' :: unquoteGo fuel rest []
      | _ =>
        -- '%' with fewer than two following characters passes through
        utf8Replace acc.reverse ++ '%' :: unquoteGo fuel rest []
    else if c.toNat < 0x80 then
      -- literal ASCII character: it belongs to the same decoded chunk
      unquoteGo fuel rest (c.toNat :: acc)
    else
      utf8Replace acc.reverse ++ c :: unquoteGo fuel rest []

/-- Model of `urllib.parse.unquote(s)` with the default UTF-8 `replace` decoding. -/
def unquote (s : String) : String :=
  String.mk (unquoteGo s.data.length s.data [])

/-! ### `clean_google_url` (src/dorkwright.py lines 128–139) -/

/-- One attempt of the regex `[?&](?:q|url)=([^&]+)` at the position just
after a matched `[?&]`: try `q=` first, then `url=`, and require a
non-empty run of non-`&` characters for the capture group. -/
def wrapperAt (cs : List Char) : Option (List Char) :=
  let afterEq : List Char → Option (List Char) := fun rest =>
    let g := rest.takeWhile (fun c => c ≠ '&')
    if g.isEmpty then none else some g
  if listStarts ['q', '='] cs then afterEq (cs.drop 2)
  else if listStarts ['u', 'r', 'l', '='] cs then afterEq (cs.drop 4)
  else none

/-- Model of `re.search(r"[?&](?:q|url)=([^&]+)", url)`: leftmost match wins; the
capture group is returned. -/
def wrapperParam : List Char → Option (List Char)
  | [] => none
  | c :: cs =>
    if c = '?' || c = '&' then
      match wrapperAt cs with
      | some g => some g
      | none => wrapperParam cs
    else wrapperParam cs

/-- Model of `clean_google_url(url)`: if the URL contains a Google redirect wrapper
(`/url?q=` or `/url?url=`) and the parameter regex matches, return the
percent-decoded parameter value; otherwise return the URL itself when it
starts with `http`, else `None`. -/
def clean_google_url (url : String) : Option String :=
  let fromWrapper : Option String :=
    if listHasSub "/url?q=".data url.data || listHasSub "/url?url=".data url.data then
      (wrapperParam url.data).map (fun g => unquote (String.mk g))
    else none
  match fromWrapper with
  | some t => some t
  | none => if listStarts "http".data url.data then some url else none

/-! ### `os.path.splitext` (posixpath `_splitext`): split off the
extension at the last dot, except that dots leading a basename do not
start an extension. -/

/-- Index of the last occurrence of `c`, if any. -/
def lastIdxOf (c : Char) (cs : List Char) : Option Nat :=
  let revIdx := (cs.reverse.takeWhile (fun x => x ≠ c)).length
  if revIdx < cs.length then some (cs.length - revIdx - 1) else none

/-- Model of `os.path.splitext` for a path using `/` as separator. -/
def pySplitext (s : String) : String × String :=
  let cs := s.data
  let sepB : Nat := match lastIdxOf '/' cs with | none => 0 | some k => k + 1
  match lastIdxOf '.' cs with
  | none => (s, "")
  | some d =>
    if decide (sepB ≤ d) && ((cs.drop sepB).take (d - sepB)).any (fun x => x ≠ '.') then
      (String.mk (cs.take d), String.mk (cs.drop d))
    else (s, "")

/-! ### `sanitize_filename` (src/dorkwright.py lines 151–206) -/

/-- The characters of the source's `invalid_chars = '<>:"|?*'` string. -/
def invalidCharList : List Char := ['<', '>', ':', '"', '|', '?', '*']

/-- The successive `str.replace(char, "_")` calls of the source (for
`<>:"|?*`, then `/`, then `\`) each rewrite one character to `_`, so
their composition is this characterwise map. -/
def replaceInvalid (c : Char) : Char :=
  if invalidCharList.contains c || c == '/' || c == '\\' then '_' else c

/-- Windows reserved device names (the source's `reserved_names`). -/
def reservedNames : List String :=
  ["CON", "PRN", "AUX", "NUL",
   "COM1", "COM2", "COM3", "COM4", "COM5", "COM6", "COM7", "COM8", "COM9",
   "LPT1", "LPT2", "LPT3", "LPT4", "LPT5", "LPT6", "LPT7", "LPT8", "LPT9"]

/-- Model of `str.strip(". ")`: remove leading and trailing dots and spaces. -/
def stripDotsSpaces (cs : List Char) : List Char :=
  ((cs.dropWhile (fun c => c == '.' || c == ' ')).reverse.dropWhile
    (fun c => c == '.' || c == ' ')).reverse

/-- Model of `str.upper()` characterwise (`Char.toUpper`; agrees with Python on
ASCII, which is all the reserved-name comparison can hit). -/
def upperStr (s : String) : String :=
  String.mk (s.data.map Char.toUpper)

/-- Model of `sanitize_filename(filename)`: replace invalid characters with `_`,
remove characters with code point `< 32`, strip leading/trailing dots and
spaces, default to `"file"` when empty, and place `_` in front when the
extension-stripped uppercased name is a reserved device name. -/
def sanitize_filename (filename : String) : String :=
  let f1 := filename.data.map replaceInvalid
  let f2 := f1.filter (fun c => decide (32 ≤ c.toNat))
  let f3 := stripDotsSpaces f2
  let f4 := if f3.isEmpty then "file".data else f3
  let nameNoExt := upperStr (pySplitext (String.mk f4)).1
  if reservedNames.contains nameNoExt then String.mk ('_' :: f4) else String.mk f4

/-! ### Filename resolution inside `download_files`
(src/dorkwright.py lines 295–377): Content-Disposition parsing, the
MIME-type table, dynamic-endpoint extension replacement, synthesis of
`file_<idx>`, and sanitization. -/

/-- Everything after the first occurrence of `lit` matching at a scan
position, with a non-empty `[^;]+` capture; later positions are tried
when the capture would be empty, as `re.search` backtracks the scan.
This is `re.search(r"filename\*=UTF-8''([^;]+)", cd)`. -/
def scanCDStar : List Char → Option (List Char)
  | [] => none
  | c :: t =>
    if listStarts "filename*=UTF-8''".data (c :: t) then
      let g := ((c :: t).drop 17).takeWhile (fun x => x ≠ ';')
      if g.isEmpty then scanCDStar t else some g
    else scanCDStar t

/-- Model of `re.search(r"filename=[\"']?([^\"';]+)", cd)`: optional single quote
character after `filename=`, then a non-empty run free of quotes and
semicolons. -/
def scanCDPlain : List Char → Option (List Char)
  | [] => none
  | c :: t =>
    if listStarts "filename=".data (c :: t) then
      let rest := (c :: t).drop 9
      let body :=
        match rest with
        | q :: r => if q == '"' || q == '\'' then r else rest
        | [] => rest
      let g := body.takeWhile (fun x => x ≠ '"' && x ≠ '\'' && x ≠ ';')
      if g.isEmpty then scanCDPlain t else some g
    else scanCDPlain t

/-- Model of `str.strip("\"'")`. -/
def stripQuotes (cs : List Char) : List Char :=
  ((cs.dropWhile (fun c => c == '"' || c == '\'')).reverse.dropWhile
    (fun c => c == '"' || c == '\'')).reverse

/-- Model of `raw.encode("latin-1").decode("utf-8")` with fallback to `raw` on
either `UnicodeEncodeError` or `UnicodeDecodeError`. -/
def recodeLatin1Utf8 (s : List Char) : List Char :=
  match encodeLatin1 s with
  | some bs =>
    match utf8Strict bs with
    | some cs => cs
    | none => s
  | none => s

/-- Filename extraction from a `Content-Disposition` header value:
RFC 5987 `filename*=UTF-8''…` (percent-decoded) takes priority over plain
`filename=…` (quote-stripped, then Latin-1/UTF-8 re-decoded when that
succeeds). -/
def filenameFromCD (cd : String) : Option String :=
  match scanCDStar cd.data with
  | some g => some (unquote (String.mk g))
  | none =>
    match scanCDPlain cd.data with
    | some g => some (String.mk (recodeLatin1Utf8 (stripQuotes g)))
    | none => none

/-- The source's `mime_to_ext` dictionary. -/
def mimeToExtTable : List (String × String) :=
  [("application/pdf", ".pdf"),
   ("application/msword", ".doc"),
   ("application/vnd.openxmlformats-officedocument.wordprocessingml.document", ".docx"),
   ("application/vnd.ms-excel", ".xls"),
   ("application/vnd.openxmlformats-officedocument.spreadsheetml.sheet", ".xlsx"),
   ("application/vnd.ms-powerpoint", ".ppt"),
   ("application/vnd.openxmlformats-officedocument.presentationml.presentation", ".pptx"),
   ("application/zip", ".zip"),
   ("application/x-zip-compressed", ".zip"),
   ("text/plain", ".txt"),
   ("text/csv", ".csv"),
   ("image/jpeg", ".jpg"),
   ("image/png", ".png"),
   ("image/gif", ".gif")]

/-- Model of `mime_to_ext.get(content_type, "")`. -/
def lookupMime (ct : String) : String :=
  ((mimeToExtTable.find? (fun p => p.1 == ct)).map (·.2)).getD ""

/-- Python `str.strip()` whitespace characters. -/
def isPyWs (c : Char) : Bool :=
  [' ', '\t', '\n', '\r', '\x0B', '\x0C'].contains c

/-- Model of `str.strip()` (both ends). -/
def pyStripWs (cs : List Char) : List Char :=
  ((cs.dropWhile isPyWs).reverse.dropWhile isPyWs).reverse

/-- Model of `response.headers.get("Content-Type", "").split(";")[0].strip().lower()`. -/
def normCT (ct : String) : String :=
  lowerStr (String.mk (pyStripWs (ct.data.takeWhile (fun c => c ≠ ';'))))

/-- Model of `os.path.basename` for a posix path: everything after the last `/`. -/
def pyBasename (s : String) : String :=
  String.mk (s.data.reverse.takeWhile (fun c => c ≠ '/')).reverse

/-- The source's list of "dynamic endpoint" extensions. -/
def dynamicExts : List String := [".aspx", ".php", ".jsp", ".cgi", ".asp"]

/-- The filename-determination slice of `download_files` for one URL:
Content-Disposition filename, else decoded URL basename; replace a
dynamic-endpoint extension that contradicts the Content-Type's expected
extension; synthesize `file_<idx><ext>` when no usable name remains;
always sanitize last.  `idx` is the 1-based position of the URL. -/
def resolveFilename (cd ct url : String) (idx : Nat) : String :=
  let f0 : String := if cd ≠ "" then (filenameFromCD cd).getD "" else ""
  let f1 := if f0 = "" then unquote (pyBasename (pyUrlparse url).path) else f0
  let correctExt := lookupMime (normCT ct)
  let f2 :=
    if f1 ≠ "" && correctExt ≠ "" then
      let currentExt := lowerStr (pySplitext f1).2
      if currentExt ≠ correctExt && dynamicExts.contains currentExt then
        (pySplitext f1).1 ++ correctExt
      else f1
    else f1
  let f3 :=
    if f2 = "" || !(f2.data.any (fun c => c == '.')) then
      "file_" ++ Nat.repr idx ++ correctExt
    else f2
  sanitize_filename f3

/-! ### Collision handling (src/dorkwright.py lines 379–388) -/

/-- Model of `f"{base}_{counter}{ext}"`. -/
def mkName (base ext : String) (k : Nat) : String :=
  base ++ "_" ++ Nat.repr k ++ ext

/-- The `while os.path.exists(output_path)` loop: try `base_1`, `base_2`,
… until a name is free.  Fuel makes the loop a total function; `none`
(fuel exhausted) is unreachable for the fuel chosen by
`resolveCollision`, because distinct candidate names cannot all lie in
`existing`. -/
def findFreeName (existing : List String) (base ext : String) : Nat → Nat → Option String
  | 0, _ => none
  | fuel + 1, counter =>
    let cand := mkName base ext counter
    if existing.contains cand then findFreeName existing base ext fuel (counter + 1)
    else some cand

/-- The duplicate-filename handling of `download_files`: keep `filename`
when its path is free, otherwise append `_1`, `_2`, … before the
extension until the path is free. -/
def resolveCollision (existing : List String) (filename : String) : Option String :=
  if existing.contains filename then
    findFreeName existing (pySplitext filename).1 (pySplitext filename).2
      (existing.length + 1) 1
  else some filename

/-! ### The crawler loop `extract_file_links` (src/dorkwright.py lines
14–125).  The browser session is abstracted to an oracle `pages` mapping
a zero-based page index to the rendered result page (its anchor `href`s
and whether the `a#pnnext` control is present), exactly the *PageSession*
capability of the spec's design notes.  Consent handling, the CAPTCHA
wait, delays and printing have no effect on the returned value.  The
second component of the result counts the executed loop iterations. -/

structure SearchPage where
  anchors : List String
  hasNext : Bool

/-- Model of `file_links.add(clean_link)` on the set of collected links (the set is
represented as a duplicate-free list in discovery order; the final result
is sorted, so the representation order is irrelevant). -/
def addLink (acc : List String) (u : String) : List String :=
  if acc.contains u then acc else acc ++ [u]

/-- The body of the `for link in links` filter: test `is_file_link` on
the raw href, then `clean_google_url`; add the cleaned URL when both
pass. -/
def extractOne (acc : List String) (link : String) : List String :=
  if is_file_link link then
    match clean_google_url link with
    | some cl => addLink acc cl
    | none => acc
  else acc

/-- The EXTRACT step for one page, processing the anchors in order. -/
def extractStep (acc : List String) (anchors : List String) : List String :=
  anchors.foldl extractOne acc

/-- The `for page_num in range(max_pages)` loop: process the page, stop
when no `a#pnnext` control is present, otherwise continue with the next
page index. -/
def crawlGo (pages : Nat → SearchPage) : Nat → Nat → List String → List String × Nat
  | 0, _, acc => (acc, 0)
  | fuel + 1, pageNum, acc =>
    let pg := pages pageNum
    let acc2 := extractStep acc pg.anchors
    if pg.hasNext then
      let r := crawlGo pages fuel (pageNum + 1) acc2
      (r.1, r.2 + 1)
    else (acc2, 1)

/-- Model of `extract_file_links`: run the page loop from index 0 and return
`sorted(list(file_links))` together with the number of loop iterations
performed. -/
def extract_file_links (pages : Nat → SearchPage) (maxPages : Nat) : List String × Nat :=
  let r := crawlGo pages maxPages 0 []
  (r.1.insertionSort (· ≤ ·), r.2)

/-! ### The downloader `download_files` (src/dorkwright.py lines
247–466).  HTTP is abstracted to an oracle `fetch`; `ok = false` models a
raised `requests.RequestException` (transport failure or
`raise_for_status`).  The output directory's pre-existing content is the
list `preExisting`; files written during the run are accumulated as
`(filename, size)` pairs.  A missing input file is `input = none`. -/

structure FetchResult where
  ok : Bool
  contentDisposition : String
  contentType : String
  size : Nat

structure DLRun where
  files : List (String × Nat)
  succeeded : Nat
  failed : Nat
  totalBytes : Nat
  perExt : List (String × Nat)
  deriving Repr, DecidableEq

/-- Model of `file_types[ext] = file_types.get(ext, 0) + 1`. -/
def bumpExt (m : List (String × Nat)) (e : String) : List (String × Nat) :=
  if m.any (fun p => p.1 == e) then
    m.map (fun p => if p.1 == e then (p.1, p.2 + 1) else p)
  else m ++ [(e, 1)]

/-- Processing of one URL inside the download loop. -/
def dlStep (fetch : String → FetchResult) (preExisting : List String)
    (st : DLRun) (idx : Nat) (url : String) : DLRun :=
  let r := fetch url
  if r.ok then
    let fname := resolveFilename r.contentDisposition r.contentType url idx
    let onDisk := preExisting ++ st.files.map (·.1)
    match resolveCollision onDisk fname with
    | some free =>
      let ext := lowerStr (pySplitext free).2
      { files := st.files ++ [(free, r.size)]
        succeeded := st.succeeded + 1
        failed := st.failed
        totalBytes := st.totalBytes + r.size
        perExt := if ext ≠ "" then bumpExt st.perExt ext else st.perExt }
    | none =>
      -- unreachable (the collision loop always finds a free name);
      -- counted like the generic exception handler of the source
      { st with failed := st.failed + 1 }
  else { st with failed := st.failed + 1 }

/-- The `for idx, url in enumerate(urls, 1)` loop. -/
def runLoop (fetch : String → FetchResult) (preExisting : List String) :
    List String → Nat → DLRun → DLRun
  | [], _, st => st
  | u :: us, idx, st =>
    runLoop fetch preExisting us (idx + 1) (dlStep fetch preExisting st idx u)

inductive DLOutcome
  | fileNotFound
  | emptyList
  | ran (run : DLRun)
  deriving Repr, DecidableEq

/-- Model of `line.strip()`. -/
def pyStripStr (s : String) : String := String.mk (pyStripWs s.data)

/-- Model of `download_files(input_file, output_dir)`: `input = none` models
`FileNotFoundError` on opening the URL list; blank lines are dropped; an
empty URL list aborts before any work; otherwise the loop runs and the
statistics are produced. -/
def download_files (input : Option (List String)) (fetch : String → FetchResult)
    (preExisting : List String) : DLOutcome :=
  match input with
  | none => DLOutcome.fileNotFound
  | some lines =>
    let urls := (lines.map pyStripStr).filter (fun l => l ≠ "")
    if urls.isEmpty then DLOutcome.emptyList
    else DLOutcome.ran (runLoop fetch preExisting urls 1 ⟨[], 0, 0, 0, []⟩)

/-- Files written into the output directory by the run. -/
def DLOutcome.writtenFiles : DLOutcome → List (String × Nat)
  | DLOutcome.ran r => r.files
  | _ => []

/-- The accumulated statistics, when the run got past its input checks. -/
def DLOutcome.statsOf : DLOutcome → Option DLRun
  | DLOutcome.ran r => some r
  | _ => none

/-! ### Claim-side predicates (stated from the specification's words, to
be compared with the behaviour of the embedded source functions). -/

/-- A dot followed by 2–5 characters of `[a-z0-9]` running to the end of
the string (declarative form of the regex `\.[a-z0-9]{2,5}$`). -/
def extAtEnd (s : List Char) : Prop :=
  ∃ t u, s = t ++ '.' :: u ∧ (∀ c ∈ u, isExtChar c = true) ∧
    2 ≤ u.length ∧ u.length ≤ 5

/-- A dot followed by 2–5 characters of `[a-z0-9]` immediately followed
by `?` or `#`, anywhere in the string (declarative form of the regex
`\.[a-z0-9]{2,5}[?#]`). -/
def extBeforeDelim (s : List Char) : Prop :=
  ∃ t u d r, s = t ++ '.' :: (u ++ d :: r) ∧ (∀ c ∈ u, isExtChar c = true) ∧
    2 ≤ u.length ∧ u.length ≤ 5 ∧ (d = '?' ∨ d = '#')

/-- Modelled from the spec: the property claim C2 states for
`is_file_link` — the URL's path, or the full URL *before the first `?` or
`#`*, ends with a dot followed by 2–5 alphanumerics (case-insensitive),
and the path is non-empty and does not end in `/`. -/
def c2SpecProp (url : String) : Prop :=
  (pyUrlparse (lowerStr url)).path ≠ "" ∧
  (pyUrlparse (lowerStr url)).path.data.getLast? ≠ some '/' ∧
    (extAtEnd (pyUrlparse (lowerStr url)).path.data ∨
     extAtEnd ((lowerStr url).data.takeWhile (fun c => c ≠ '?' && c ≠ '#')))

/-- Modelled from the spec: the FileLink invariant (spec §3) — the URL
scheme is http/https and the path or query string contains a 2–5
alphanumeric-character extension-like token immediately before the end or
before `?`/`#`. -/
def FileLinkInvariant (u : String) : Bool :=
  let parts := pyUrlparse (lowerStr u)
  (parts.scheme == "http" || parts.scheme == "https") &&
    ((scanExtEnd parts.path.data || scanExtQH parts.path.data) ||
     (scanExtEnd parts.query.data || scanExtQH parts.query.data))

/-- Modelled from the spec: "ASCII control characters" in claim C5 — the
C0 range together with DEL (U+007F). -/
def isAsciiCtrl (c : Char) : Bool :=
  c.toNat < 32 || c.toNat == 127

/-- Page oracle for witnesses: a single result page carrying one direct
PDF link and no next control. -/
def onePdfPage : Nat → SearchPage :=
  fun _ => ⟨["https://example.com/file.pdf"], false⟩

/-- Page oracle for the C3 counterexample: the page's only anchor is a
Google redirect wrapper whose target has scheme `ftp`, crafted so that
the raw href passes `is_file_link` via its `.pdf#` fragment ending. -/
def ftpWrapPage : Nat → SearchPage :=
  fun _ => ⟨["https://www.google.com/url?q=ftp://x/a&z=.pdf#"], false⟩

/-- Fetch oracle for witnesses: every URL fails with a request error. -/
def noopFetch : String → FetchResult :=
  fun _ => ⟨false, "", "", 0⟩

/-- Fetch oracle for the C7 witness: every URL succeeds with `text/csv`
content, no Content-Disposition and a 10-byte body. -/
def csvFetch : String → FetchResult :=
  fun _ => ⟨true, "", "text/csv", 10⟩

/-! ## Theorems

First the generic lemmas connecting the operational regex scans with
their declarative forms, and the structural lemmas about the crawler and
sanitizer pipelines; then one theorem (plus witness or counterexample)
per claim. -/

/-! ### Sanity checks: concrete evaluations of the embedded functions (cross-checked against the behaviour of the Python source). -/

example : is_file_link "http://example.com/file.pdf" = true := by decide
example : is_file_link "http://example.com/dir/" = false := by decide
example : is_file_link "http://example.com/file.pdf?download=true" = true := by decide
example : is_file_link "http://e.com/a?b=c.pdf?d" = true := by decide
example : unquote "https%3A%2F%2Fexample.com%2Ffile.pdf" = "https://example.com/file.pdf" := by
  decide
example : unquote "a%20b%" = "a b%" := by decide
example : unquote "%C3%A9" = "é" := by decide
example :
    clean_google_url "https://www.google.com/url?q=https%3A%2F%2Fexample.com%2Ffile.pdf&sa=x" =
      some "https://example.com/file.pdf" := by decide
example : clean_google_url "https://example.com/file.pdf" = some "https://example.com/file.pdf" := by
  decide
example : clean_google_url "/relative/link" = none := by decide
example : clean_google_url "https://google.com/url?q=abc" = some "abc" := by decide
example : clean_google_url "abc" = none := by decide
example : pySplitext "report.aspx" = ("report", ".aspx") := by decide
example : pySplitext "archive.tar.gz" = ("archive.tar", ".gz") := by decide
example : pySplitext ".bashrc" = (".bashrc", "") := by decide
example : pySplitext "con." = ("con", ".") := by decide
example : sanitize_filename "con.txt" = "_con.txt" := by decide
example : sanitize_filename "a<b>c.pdf" = "a_b_c.pdf" := by decide
example : sanitize_filename "  .file. " = "file" := by decide
example : sanitize_filename "" = "file" := by decide
example : sanitize_filename "a/b\\c" = "a_b_c" := by decide
example : filenameFromCD "attachment; filename=\"report.aspx\"" = some "report.aspx" := by
  decide
example : filenameFromCD "attachment; filename*=UTF-8''r%C3%A9sum%C3%A9.pdf" =
    some "résumé.pdf" := by decide
example :
    resolveFilename "attachment; filename=\"report.aspx\"" "application/pdf"
      "http://x.org/dl" 1 = "report.pdf" := by decide
example :
    resolveFilename "" "application/pdf" "http://x.org/getfile" 3 = "file_3.pdf" := by decide
example :
    resolveFilename "" "" "http://x.org/docs/data%20set.csv" 2 = "data set.csv" := by decide
example : resolveCollision ["data.csv"] "data.csv" = some "data_1.csv" := by decide
example : resolveCollision ["data.csv", "data_1.csv"] "data.csv" = some "data_2.csv" := by
  decide
example : resolveCollision ["other.csv"] "data.csv" = some "data.csv" := by decide

theorem scanExtEnd_iff (s : List Char) : scanExtEnd s = true ↔ extAtEnd s := by
  induction s with
  | nil =>
    simp only [scanExtEnd, extAtEnd]
    constructor
    · intro h
      exact absurd h Bool.false_ne_true
    · rintro ⟨t, u, h, -⟩
      exact absurd h.symm (by simp)
  | cons c t ih =>
    simp only [scanExtEnd, Bool.or_eq_true, Bool.and_eq_true, beq_iff_eq,
      decide_eq_true_eq, List.all_eq_true, ih, extAtEnd]
    constructor
    · rintro (⟨⟨⟨hc, hall⟩, h2⟩, h5⟩ | ⟨t', u, hEq, hall, h2, h5⟩)
      · exact ⟨[], t, by simp [hc], hall, h2, h5⟩
      · exact ⟨c :: t', u, by simp [hEq], hall, h2, h5⟩
    · rintro ⟨t', u, hEq, hall, h2, h5⟩
      cases t' with
      | nil =>
        simp only [List.nil_append, List.cons.injEq] at hEq
        exact Or.inl ⟨⟨⟨hEq.1, hEq.2 ▸ hall⟩, hEq.2 ▸ h2⟩, hEq.2 ▸ h5⟩
      | cons a t'' =>
        simp only [List.cons_append, List.cons.injEq] at hEq
        exact Or.inr ⟨t'', u, hEq.2, hall, h2, h5⟩

theorem matchAlnumThenQH_iff (t : List Char) :
    matchAlnumThenQH t = true ↔
      ∃ u d r, t = u ++ d :: r ∧ (∀ c ∈ u, isExtChar c = true) ∧
        2 ≤ u.length ∧ u.length ≤ 5 ∧ (d = '?' ∨ d = '#') := by
  unfold matchAlnumThenQH
  rw [List.any_eq_true]
  constructor
  · rintro ⟨j, hj, hcond⟩
    simp only [Bool.and_eq_true, decide_eq_true_eq, List.all_eq_true] at hcond
    obtain ⟨⟨hjle, hall⟩, hmatch⟩ := hcond
    cases hd : t.drop j with
    | nil => rw [hd] at hmatch; exact absurd hmatch (by simp)
    | cons d r =>
      rw [hd] at hmatch
      simp only [Bool.or_eq_true, beq_iff_eq] at hmatch
      refine ⟨t.take j, d, r, ?_, hall, ?_, ?_, hmatch⟩
      · rw [← hd, List.take_append_drop]
      · have : (t.take j).length = j := by
          rw [List.length_take]; omega
        have hj' : 2 ≤ j := by fin_cases hj <;> omega
        omega
      · have : (t.take j).length = j := by
          rw [List.length_take]; omega
        have hj' : j ≤ 5 := by fin_cases hj <;> omega
        omega
  · rintro ⟨u, d, r, rfl, hall, h2, h5, hd⟩
    refine ⟨u.length, ?_, ?_⟩
    · have hmem : u.length = 2 ∨ u.length = 3 ∨ u.length = 4 ∨ u.length = 5 := by omega
      rcases hmem with h | h | h | h <;> rw [h] <;> decide
    · simp only [Bool.and_eq_true, decide_eq_true_eq, List.all_eq_true]
      refine ⟨⟨?_, ?_⟩, ?_⟩
      · simp
      · intro c hc
        rw [List.take_left] at hc
        exact hall c hc
      · rw [List.drop_left]
        rcases hd with rfl | rfl <;> simp

theorem scanExtQH_iff (s : List Char) : scanExtQH s = true ↔ extBeforeDelim s := by
  induction s with
  | nil =>
    simp only [scanExtQH, extBeforeDelim]
    constructor
    · intro h
      exact absurd h Bool.false_ne_true
    · rintro ⟨t, u, d, r, h, -⟩
      exact absurd h.symm (by simp)
  | cons c t ih =>
    simp only [scanExtQH, Bool.or_eq_true, Bool.and_eq_true, beq_iff_eq,
      matchAlnumThenQH_iff, ih, extBeforeDelim]
    constructor
    · rintro (⟨hc, u, d, r, hEq, hall, h2, h5, hd⟩ | ⟨t', u, d, r, hEq, hall, h2, h5, hd⟩)
      · exact ⟨[], u, d, r, by simp [hc, hEq], hall, h2, h5, hd⟩
      · exact ⟨c :: t', u, d, r, by simp [hEq], hall, h2, h5, hd⟩
    · rintro ⟨t', u, d, r, hEq, hall, h2, h5, hd⟩
      cases t' with
      | nil =>
        simp only [List.nil_append, List.cons.injEq] at hEq
        exact Or.inl ⟨hEq.1, u, d, r, hEq.2, hall, h2, h5, hd⟩
      | cons a t'' =>
        simp only [List.cons_append, List.cons.injEq] at hEq
        exact Or.inr ⟨t'', u, d, r, hEq.2, hall, h2, h5, hd⟩

/-- C2 (amended): `is_file_link url` is true iff the `urlparse` path of
the lowercased URL is non-empty, does not end in `/`, and either that
path ends with a dot followed by 2–5 alphanumerics, or the full lowered
URL contains — anywhere, not only before the first `?`/`#` — a dot
followed by 2–5 alphanumerics immediately followed by `?` or `#`. -/
theorem is_file_link_characterization (url : String) :
    is_file_link url = true ↔
      ((pyUrlparse (lowerStr url)).path ≠ "" ∧
       (pyUrlparse (lowerStr url)).path.data.getLast? ≠ some '/' ∧
       (extAtEnd (pyUrlparse (lowerStr url)).path.data ∨
        extBeforeDelim (lowerStr url).data)) := by
  have hif : is_file_link url =
      (if ((pyUrlparse (lowerStr url)).path == "" ||
            (pyUrlparse (lowerStr url)).path.data.getLast? == some '/') then false
       else (scanExtEnd (pyUrlparse (lowerStr url)).path.data ||
             scanExtQH (lowerStr url).data)) := rfl
  rw [hif]
  by_cases hc : ((pyUrlparse (lowerStr url)).path == "" ||
      (pyUrlparse (lowerStr url)).path.data.getLast? == some '/') = true
  · rw [if_pos hc]
    simp only [Bool.or_eq_true, beq_iff_eq] at hc
    constructor
    · intro h
      exact absurd h Bool.false_ne_true
    · rintro ⟨h1, h2, -⟩
      rcases hc with hc | hc
      · exact absurd hc h1
      · exact absurd hc h2
  · rw [if_neg hc]
    simp only [Bool.or_eq_true, beq_iff_eq, not_or] at hc
    simp only [Bool.or_eq_true, scanExtEnd_iff, scanExtQH_iff]
    constructor
    · intro h
      exact ⟨hc.1, hc.2, h⟩
    · rintro ⟨-, -, h⟩
      exact h

/-- C2 counterexample: for `"http://e.com/a?b=c.pdf?d"` the source's
full-URL regex matches `.pdf?` *inside the query string*, after the first
`?`, so `is_file_link` returns true although the claim's condition (path,
or full URL before the first `?`/`#`, ends with an extension) is false. -/
theorem is_file_link_matches_after_first_delim :
    is_file_link "http://e.com/a?b=c.pdf?d" = true ∧
      ¬ c2SpecProp "http://e.com/a?b=c.pdf?d" := by
  refine ⟨by decide, ?_⟩
  rintro ⟨-, -, h | h⟩
  · rw [← scanExtEnd_iff] at h
    exact absurd h (by decide)
  · rw [← scanExtEnd_iff] at h
    exact absurd h (by decide)

/-- Membership in the accumulating set after `file_links.add`. -/
theorem mem_addLink {acc : List String} {v u : String} :
    u ∈ addLink acc v ↔ u ∈ acc ∨ u = v := by
  unfold addLink
  by_cases h : v ∈ acc
  · rw [if_pos (List.elem_eq_true_of_mem h)]
    constructor
    · exact Or.inl
    · rintro (hm | rfl)
      · exact hm
      · exact h
  · rw [if_neg (fun hc => h (List.mem_of_elem_eq_true hc))]
    simp [List.mem_append]

/-- Membership after processing one anchor. -/
theorem mem_extractOne {acc : List String} {link u : String} :
    u ∈ extractOne acc link ↔
      u ∈ acc ∨ (is_file_link link = true ∧ clean_google_url link = some u) := by
  unfold extractOne
  by_cases hf : is_file_link link = true
  · rw [if_pos hf]
    cases hcl : clean_google_url link with
    | none => simp [hf, hcl]
    | some cl =>
      simp only [hcl, mem_addLink, hf, true_and, Option.some.injEq]
      constructor
      · rintro (hm | rfl)
        · exact Or.inl hm
        · exact Or.inr rfl
      · rintro (hm | rfl)
        · exact Or.inl hm
        · exact Or.inr rfl
  · rw [if_neg hf]
    simp [hf]

/-- Membership after the EXTRACT step of one page: a URL is in the result
iff it was already accumulated or some anchor href passes `is_file_link`
(applied to the raw href) and `clean_google_url` maps that href to it. -/
theorem mem_extractStep_aux (anchors : List String) :
    ∀ (acc : List String) (u : String),
      u ∈ extractStep acc anchors ↔
        u ∈ acc ∨ ∃ href ∈ anchors,
          is_file_link href = true ∧ clean_google_url href = some u := by
  induction anchors with
  | nil => intro acc u; simp [extractStep]
  | cons a t ih =>
    intro acc u
    have hcons : extractStep acc (a :: t) = extractStep (extractOne acc a) t :=
      List.foldl_cons ..
    rw [hcons, ih, mem_extractOne]
    simp only [List.mem_cons]
    constructor
    · rintro ((hm | ⟨hf, hc⟩) | ⟨href, hh, hl, hc⟩)
      · exact Or.inl hm
      · exact Or.inr ⟨a, Or.inl rfl, hf, hc⟩
      · exact Or.inr ⟨href, Or.inr hh, hl, hc⟩
    · rintro (hm | ⟨href, hh, hl, hc⟩)
      · exact Or.inl (Or.inl hm)
      · rcases hh with rfl | hh
        · exact Or.inl (Or.inr ⟨hl, hc⟩)
        · exact Or.inr ⟨href, hh, hl, hc⟩

/-- C1 (amended): in the EXTRACT step a URL is added exactly when the
*raw* anchor href passes `is_file_link` and `clean_google_url` of the raw
href returns it; the normalized result is added without re-checking
`is_file_link`. -/
theorem extractStep_mem_iff (acc anchors : List String) (u : String) :
    u ∈ extractStep acc anchors ↔
      u ∈ acc ∨ ∃ href ∈ anchors,
        is_file_link href = true ∧ clean_google_url href = some u :=
  mem_extractStep_aux anchors acc u

/-- C1 counterexample: a Google redirect wrapper around a PDF target.
The claim demands it be collected (normalize produces an `http` URL whose
`is_file_link` is true), but the source tests `is_file_link` on the raw
wrapper href, which fails, so the EXTRACT step collects nothing. -/
theorem extractStep_skips_wrapped_pdf :
    extractStep [] ["https://www.google.com/url?q=https%3A%2F%2Fexample.com%2Ffile.pdf"] = [] ∧
    clean_google_url "https://www.google.com/url?q=https%3A%2F%2Fexample.com%2Ffile.pdf" =
      some "https://example.com/file.pdf" ∧
    is_file_link "https://example.com/file.pdf" = true :=
  ⟨by decide, by decide, by decide⟩

/-- C4 (amended): `clean_google_url` is idempotent on URLs that begin
with `http` and contain no redirect-wrapper marker `/url?q=` or
`/url?url=`: such URLs are returned unchanged, so a second application
returns the same value. -/
theorem clean_google_url_idem (u : String)
    (h1 : listStarts "http".data u.data = true)
    (h2 : listHasSub "/url?q=".data u.data = false)
    (h3 : listHasSub "/url?url=".data u.data = false) :
    (clean_google_url u).bind clean_google_url = clean_google_url u := by
  have hu : clean_google_url u = some u := by
    unfold clean_google_url
    rw [h2, h3]
    simp [h1]
  rw [hu, Option.some_bind, hu]

theorem clean_google_url_idem_witness :
    listStarts "http".data "https://example.com/file.pdf".data = true ∧
    (clean_google_url "https://example.com/file.pdf").bind clean_google_url =
      clean_google_url "https://example.com/file.pdf" :=
  ⟨by decide,
   clean_google_url_idem "https://example.com/file.pdf" (by decide) (by decide) (by decide)⟩

/-- C4 counterexample: `"https://google.com/url?q=abc"` begins with
`http`, but `clean_google_url` maps it to `"abc"` and a second
application maps `"abc"` to `none`, so normalize∘normalize differs from
normalize on a URL beginning with `http`. -/
theorem clean_google_url_not_idem_on_wrapper :
    listStarts "http".data "https://google.com/url?q=abc".data = true ∧
    (clean_google_url "https://google.com/url?q=abc").bind clean_google_url ≠
      clean_google_url "https://google.com/url?q=abc" :=
  ⟨by decide, by decide⟩

/-! ### Crawler loop lemmas -/

/-- Unfolding of one iteration of the page loop. -/
theorem crawlGo_succ (pages : Nat → SearchPage) (fuel pageNum : Nat) (acc : List String) :
    crawlGo pages (fuel + 1) pageNum acc =
      (if (pages pageNum).hasNext then
        ((crawlGo pages fuel (pageNum + 1) (extractStep acc (pages pageNum).anchors)).1,
         (crawlGo pages fuel (pageNum + 1) (extractStep acc (pages pageNum).anchors)).2 + 1)
      else (extractStep acc (pages pageNum).anchors, 1)) := by
  rw [crawlGo]

/-- The page loop runs at most `fuel` iterations. -/
theorem crawlGo_iter_le (pages : Nat → SearchPage) :
    ∀ (fuel pageNum : Nat) (acc : List String),
      (crawlGo pages fuel pageNum acc).2 ≤ fuel := by
  intro fuel
  induction fuel with
  | zero => intro pageNum acc; simp [crawlGo]
  | succ fuel ih =>
    intro pageNum acc
    rw [crawlGo_succ]
    by_cases h : (pages pageNum).hasNext = true
    · rw [if_pos h]
      exact Nat.succ_le_succ (ih _ _)
    · rw [if_neg h]
      exact Nat.succ_le_succ (Nat.zero_le _)

theorem nodup_addLink {acc : List String} {u : String} (h : acc.Nodup) :
    (addLink acc u).Nodup := by
  unfold addLink
  by_cases hm : u ∈ acc
  · rw [if_pos (List.elem_eq_true_of_mem hm)]
    exact h
  · rw [if_neg (fun hc => hm (List.mem_of_elem_eq_true hc))]
    simp [List.nodup_append, h, hm]

theorem nodup_extractOne {acc : List String} {link : String} (h : acc.Nodup) :
    (extractOne acc link).Nodup := by
  unfold extractOne
  by_cases hf : is_file_link link = true
  · rw [if_pos hf]
    cases hcl : clean_google_url link with
    | none => simp only [hcl]; exact h
    | some cl => simp only [hcl]; exact nodup_addLink h
  · rw [if_neg hf]
    exact h

theorem nodup_extractStep (anchors : List String) :
    ∀ acc : List String, acc.Nodup → (extractStep acc anchors).Nodup := by
  induction anchors with
  | nil => intro acc h; exact h
  | cons a t ih =>
    intro acc h
    have hcons : extractStep acc (a :: t) = extractStep (extractOne acc a) t :=
      List.foldl_cons ..
    rw [hcons]
    exact ih _ (nodup_extractOne h)

theorem crawlGo_nodup (pages : Nat → SearchPage) :
    ∀ (fuel pageNum : Nat) (acc : List String),
      acc.Nodup → (crawlGo pages fuel pageNum acc).1.Nodup := by
  intro fuel
  induction fuel with
  | zero => intro pageNum acc h; exact h
  | succ fuel ih =>
    intro pageNum acc h
    rw [crawlGo_succ]
    by_cases hn : (pages pageNum).hasNext = true
    · rw [if_pos hn]
      exact ih _ _ (nodup_extractStep _ _ h)
    · rw [if_neg hn]
      exact nodup_extractStep _ _ h

/-- Every link the page loop accumulates beyond `acc` stems from an
anchor of one of the visited pages, passed `is_file_link` raw, and is the
`clean_google_url` image of that anchor. -/
theorem crawlGo_mem (pages : Nat → SearchPage) :
    ∀ (fuel pageNum : Nat) (acc : List String) (u : String),
      u ∈ (crawlGo pages fuel pageNum acc).1 →
        u ∈ acc ∨ ∃ i href, pageNum ≤ i ∧ i < pageNum + fuel ∧
          href ∈ (pages i).anchors ∧ is_file_link href = true ∧
          clean_google_url href = some u := by
  intro fuel
  induction fuel with
  | zero => intro pageNum acc u h; exact Or.inl h
  | succ fuel ih =>
    intro pageNum acc u h
    rw [crawlGo_succ] at h
    by_cases hn : (pages pageNum).hasNext = true
    · rw [if_pos hn] at h
      rcases ih (pageNum + 1) _ u h with hm | ⟨i, href, hi1, hi2, hmem, hl, hc⟩
      · rcases (mem_extractStep_aux _ _ _).1 hm with hm2 | ⟨href, hh, hl, hc⟩
        · exact Or.inl hm2
        · exact Or.inr ⟨pageNum, href, Nat.le_refl _, by omega, hh, hl, hc⟩
      · exact Or.inr ⟨i, href, by omega, by omega, hmem, hl, hc⟩
    · rw [if_neg hn] at h
      rcases (mem_extractStep_aux _ _ _).1 h with hm2 | ⟨href, hh, hl, hc⟩
      · exact Or.inl hm2
      · exact Or.inr ⟨pageNum, href, Nat.le_refl _, by omega, hh, hl, hc⟩

/-- C9: the crawler performs at most `maxPages` page iterations (and, as
a total function of the page oracle, always terminates), whatever the
oracle answers — in particular when a "next" control is present on every
page. -/
theorem extract_file_links_iterations_le (pages : Nat → SearchPage) (maxPages : Nat) :
    (extract_file_links pages maxPages).2 ≤ maxPages := by
  have h : (extract_file_links pages maxPages).2 = (crawlGo pages maxPages 0 []).2 := rfl
  rw [h]
  exact crawlGo_iter_le pages maxPages 0 []

/-- C10: the crawler's return value is sorted (the `≤` on `String` is
lexicographic code-point order, Python's `sorted` on `str`) and contains
no duplicate URLs. -/
theorem extract_file_links_sorted_nodup (pages : Nat → SearchPage) (maxPages : Nat) :
    List.Sorted (· ≤ ·) (extract_file_links pages maxPages).1 ∧
    (extract_file_links pages maxPages).1.Nodup := by
  have h1 : (extract_file_links pages maxPages).1 =
      (crawlGo pages maxPages 0 []).1.insertionSort (· ≤ ·) := rfl
  rw [h1]
  constructor
  · exact List.sorted_insertionSort _ _
  · exact (List.perm_insertionSort _ _).symm.nodup
      (crawlGo_nodup pages maxPages 0 [] List.nodup_nil)

/-- C3 (amended): every element of the crawler's result is the
`clean_google_url` image of an anchor href, found on one of the at most
`maxPages` visited pages, that passed `is_file_link` raw; the FileLink
invariant (http/https scheme, extension-like token) is *not* guaranteed
for elements extracted from redirect wrappers. -/
theorem extract_file_links_mem_source (pages : Nat → SearchPage) (maxPages : Nat)
    (u : String) (h : u ∈ (extract_file_links pages maxPages).1) :
    ∃ i href, i < maxPages ∧ href ∈ (pages i).anchors ∧
      is_file_link href = true ∧ clean_google_url href = some u := by
  have h1 : (extract_file_links pages maxPages).1 =
      (crawlGo pages maxPages 0 []).1.insertionSort (· ≤ ·) := rfl
  rw [h1, List.mem_insertionSort] at h
  rcases crawlGo_mem pages maxPages 0 [] u h with hm | ⟨i, href, hi1, hi2, hmem, hl, hc⟩
  · exact absurd hm (List.not_mem_nil u)
  · exact ⟨i, href, by omega, hmem, hl, hc⟩

theorem extract_file_links_mem_source_witness :
    "https://example.com/file.pdf" ∈ (extract_file_links onePdfPage 1).1 ∧
    ∃ i href, i < 1 ∧ href ∈ (onePdfPage i).anchors ∧
      is_file_link href = true ∧
      clean_google_url href = some "https://example.com/file.pdf" :=
  ⟨by decide, extract_file_links_mem_source onePdfPage 1 _ (by decide)⟩

/-- C3 counterexample: a crawl whose only anchor is the wrapper
`https://www.google.com/url?q=ftp://x/a&z=.pdf#` returns the extracted
URL `ftp://x/a`, which violates the FileLink invariant: its scheme is
`ftp` and it carries no extension-like token. -/
theorem extract_file_links_breaks_invariant :
    "ftp://x/a" ∈ (extract_file_links ftpWrapPage 1).1 ∧
    FileLinkInvariant "ftp://x/a" = false :=
  ⟨by decide, by decide⟩

/-! ### Sanitizer lemmas -/

theorem replaceInvalid_props (c : Char) :
    replaceInvalid c ∉ invalidCharList ∧ replaceInvalid c ≠ '/' ∧ replaceInvalid c ≠ '\\' := by
  unfold replaceInvalid
  by_cases h : (invalidCharList.contains c || c == '/' || c == '\\') = true
  · rw [if_pos h]
    exact ⟨by decide, by decide, by decide⟩
  · rw [if_neg h]
    simp only [Bool.or_eq_true, beq_iff_eq, not_or] at h
    obtain ⟨⟨h1, h2⟩, h3⟩ := h
    exact ⟨fun hm => h1 (List.elem_eq_true_of_mem hm), h2, h3⟩

theorem mem_map_replaceInvalid {c : Char} {l : List Char}
    (h : c ∈ l.map replaceInvalid) :
    c ∉ invalidCharList ∧ c ≠ '/' ∧ c ≠ '\\' := by
  rcases List.mem_map.1 h with ⟨c₀, -, rfl⟩
  exact replaceInvalid_props c₀

theorem mem_stripDotsSpaces {c : Char} {l : List Char}
    (h : c ∈ stripDotsSpaces l) : c ∈ l := by
  unfold stripDotsSpaces at h
  rw [List.mem_reverse] at h
  have h2 := (List.dropWhile_sublist _).subset h
  rw [List.mem_reverse] at h2
  exact (List.dropWhile_sublist _).subset h2

theorem dropWhile_head?_false {p : Char → Bool} :
    ∀ {l : List Char} {c : Char}, (l.dropWhile p).head? = some c → p c = false := by
  intro l
  induction l with
  | nil => intro c h; simp [List.dropWhile_nil] at h
  | cons a t ih =>
    intro c h
    rw [List.dropWhile_cons] at h
    by_cases hp : p a = true
    · rw [if_pos hp] at h
      exact ih h
    · rw [if_neg hp] at h
      simp only [List.head?_cons, Option.some.injEq] at h
      subst h
      exact Bool.eq_false_iff.mpr hp

/-- The list `stripDotsSpaces l` is the front of `l.dropWhile p`: the trailing
strip only removes a suffix. -/
theorem stripDotsSpaces_decomp (l : List Char) :
    ∃ T, l.dropWhile (fun c => c == '.' || c == ' ') = stripDotsSpaces l ++ T := by
  unfold stripDotsSpaces
  have h1 := List.takeWhile_append_dropWhile (fun c : Char => c == '.' || c == ' ')
    (l.dropWhile (fun c => c == '.' || c == ' ')).reverse
  have h2 := congrArg List.reverse h1
  rw [List.reverse_append, List.reverse_reverse] at h2
  exact ⟨_, h2.symm⟩

theorem head?_stripDotsSpaces {l : List Char} {c : Char}
    (h : (stripDotsSpaces l).head? = some c) : (c == '.' || c == ' ') = false := by
  obtain ⟨T, hT⟩ := stripDotsSpaces_decomp l
  have hh : (l.dropWhile (fun c => c == '.' || c == ' ')).head? = some c := by
    rw [hT, List.head?_append, h]
    rfl
  exact dropWhile_head?_false hh

theorem getLast?_stripDotsSpaces {l : List Char} {c : Char}
    (h : (stripDotsSpaces l).getLast? = some c) : (c == '.' || c == ' ') = false := by
  unfold stripDotsSpaces at h
  rw [List.getLast?_reverse] at h
  exact dropWhile_head?_false h

/-- Decomposition of `sanitize_filename`: the result is the
reserved-name-guarded version of a core list `f4` of characters that is
non-empty, free of invalid and control characters, and neither starts nor
ends with a dot or space. -/
theorem sanitize_build (s : String) :
    ∃ f4 : List Char,
      sanitize_filename s =
        (if reservedNames.contains (upperStr (pySplitext (String.mk f4)).1) then
          String.mk ('_' :: f4)
        else String.mk f4) ∧
      (∀ c ∈ f4, c ∉ invalidCharList ∧ c ≠ '/' ∧ c ≠ '\\' ∧ 32 ≤ c.toNat) ∧
      f4 ≠ [] ∧
      (∀ c, f4.head? = some c → c ≠ '.' ∧ c ≠ ' ') ∧
      (∀ c, f4.getLast? = some c → c ≠ '.' ∧ c ≠ ' ') := by
  by_cases he : (stripDotsSpaces ((s.data.map replaceInvalid).filter
      (fun c => decide (32 ≤ c.toNat)))).isEmpty = true
  · refine ⟨"file".data, ?_, by decide, by decide, by decide, by decide⟩
    simp only [sanitize_filename]
    rw [if_pos he]
  · refine ⟨stripDotsSpaces ((s.data.map replaceInvalid).filter
      (fun c => decide (32 ≤ c.toNat))), ?_, ?_, ?_, ?_, ?_⟩
    · simp only [sanitize_filename]
      rw [if_neg he]
    · intro c hc
      have hf2 := mem_stripDotsSpaces hc
      rw [List.mem_filter] at hf2
      obtain ⟨hmap, h32⟩ := hf2
      obtain ⟨hi, hs, hb⟩ := mem_map_replaceInvalid hmap
      exact ⟨hi, hs, hb, by simpa using h32⟩
    · intro hnil
      rw [hnil] at he
      exact he rfl
    · intro c hc
      have := head?_stripDotsSpaces hc
      simp only [Bool.or_eq_true, beq_iff_eq] at this
      constructor
      · intro hEq; exact absurd (Or.inl hEq) (by simpa using this)
      · intro hEq; exact absurd (Or.inr hEq) (by simpa using this)
    · intro c hc
      have := getLast?_stripDotsSpaces hc
      simp only [Bool.or_eq_true, beq_iff_eq] at this
      constructor
      · intro hEq; exact absurd (Or.inl hEq) (by simpa using this)
      · intro hEq; exact absurd (Or.inr hEq) (by simpa using this)

/-- C5 (amended): for every input, the sanitized filename contains none
of `<>:"|?*`, `/`, `\`, no character with code point below 32 (the DEL
character U+007F is *not* removed, which is the one deviation from the
claim as stated), is non-empty, neither starts nor ends with a dot or a
space, and if its extension-stripped uppercased form is a reserved device
name then it starts with `_`. -/
theorem sanitize_filename_safe (s : String) :
    (∀ c ∈ (sanitize_filename s).data,
        c ∉ invalidCharList ∧ c ≠ '/' ∧ c ≠ '\\' ∧ 32 ≤ c.toNat) ∧
    sanitize_filename s ≠ "" ∧
    (∀ c, (sanitize_filename s).data.head? = some c → c ≠ '.' ∧ c ≠ ' ') ∧
    (∀ c, (sanitize_filename s).data.getLast? = some c → c ≠ '.' ∧ c ≠ ' ') ∧
    (reservedNames.contains (upperStr (pySplitext (sanitize_filename s)).1) = true →
      (sanitize_filename s).data.head? = some '_') := by
  obtain ⟨f4, hEq, hchars, hne, hhead, hlast⟩ := sanitize_build s
  by_cases hr : reservedNames.contains (upperStr (pySplitext (String.mk f4)).1) = true
  · rw [if_pos hr] at hEq
    rw [hEq]
    refine ⟨?_, ?_, ?_, ?_, ?_⟩
    · intro c hc
      rcases List.mem_cons.1 hc with rfl | hc
      · exact ⟨by decide, by decide, by decide, by decide⟩
      · exact hchars c hc
    · intro h
      have : ('_' :: f4) = [] := by
        have := congrArg String.data h
        simpa using this
      exact absurd this (by simp)
    · intro c hc
      simp only [List.head?_cons, Option.some.injEq] at hc
      subst hc
      exact ⟨by decide, by decide⟩
    · intro c hc
      have hfl : f4.getLast? = some c := by
        cases hgl : f4.getLast? with
        | none => exact absurd (List.getLast?_eq_none_iff.1 hgl) hne
        | some d =>
          have hd : ('_' :: f4).getLast? = some d := by
            have h1 : ('_' :: f4) = ['_'] ++ f4 := rfl
            rw [h1, List.getLast?_append, hgl]
            rfl
          rw [hd] at hc
          exact hc
      exact hlast c hfl
    · intro _
      rfl
  · rw [if_neg hr] at hEq
    rw [hEq]
    refine ⟨hchars, ?_, hhead, hlast, ?_⟩
    · intro h
      have : f4 = [] := by
        have := congrArg String.data h
        simpa using this
      exact absurd this hne
    · intro h
      exact absurd h hr

theorem sanitize_filename_safe_witness :
    ((∀ c ∈ (sanitize_filename "con.txt").data,
        c ∉ invalidCharList ∧ c ≠ '/' ∧ c ≠ '\\' ∧ 32 ≤ c.toNat) ∧
     sanitize_filename "con.txt" ≠ "" ∧
     (∀ c, (sanitize_filename "con.txt").data.head? = some c → c ≠ '.' ∧ c ≠ ' ') ∧
     (∀ c, (sanitize_filename "con.txt").data.getLast? = some c → c ≠ '.' ∧ c ≠ ' ') ∧
     (reservedNames.contains (upperStr (pySplitext (sanitize_filename "con.txt")).1) = true →
       (sanitize_filename "con.txt").data.head? = some '_')) ∧
    sanitize_filename "con.txt" = "_con.txt" :=
  ⟨sanitize_filename_safe "con.txt", by decide⟩

/-- C5 counterexample: the source only removes code points below 32, so
the ASCII control character DEL (U+007F) survives sanitization — the
returned name contains an ASCII control character. -/
theorem sanitize_filename_keeps_del :
    (sanitize_filename "a\x7F").data.any isAsciiCtrl = true ∧
    sanitize_filename "a\x7F" = "a\x7F" :=
  ⟨by decide, by decide⟩

/-! ### Filename resolution and collision lemmas -/

/-- Every non-default value of the MIME table contains a dot. -/
theorem lookupMime_dot (ct : String) :
    lookupMime ct = "" ∨ (lookupMime ct).data.any (fun c => c == '.') = true := by
  unfold lookupMime
  cases h : mimeToExtTable.find? (fun p => p.1 == ct) with
  | none => exact Or.inl rfl
  | some pr =>
    right
    have hm := List.mem_of_find?_eq_some h
    fin_cases hm <;> decide

/-- Concatenating a string to `(x ++ y).data = x.data ++ y.data` (by
structure eta). -/
theorem strData_append (x y : String) : (x ++ y).data = x.data ++ y.data := rfl

/-- C6: when the Content-Disposition header yields a filename whose
extension is a dynamic-endpoint extension (`.aspx`, `.php`, `.jsp`,
`.cgi`, `.asp`) differing from the extension the fixed MIME table assigns
to the Content-Type, the extension is replaced by the expected one (and
the result then only passes through `sanitize_filename`). -/
theorem resolveFilename_dynamic_ext_replaced (cd ct url : String) (idx : Nat) (f : String)
    (hcd : cd ≠ "") (hf : filenameFromCD cd = some f) (hfne : f ≠ "")
    (he : lookupMime (normCT ct) ≠ "")
    (hdyn : dynamicExts.contains (lowerStr (pySplitext f).2) = true)
    (hne : lowerStr (pySplitext f).2 ≠ lookupMime (normCT ct)) :
    resolveFilename cd ct url idx =
      sanitize_filename ((pySplitext f).1 ++ lookupMime (normCT ct)) := by
  have hdot : (lookupMime (normCT ct)).data.any (fun c => c == '.') = true := by
    rcases lookupMime_dot (normCT ct) with h | h
    · exact absurd h he
    · exact h
  have hcat_dot : ((pySplitext f).1 ++ lookupMime (normCT ct)).data.any
      (fun c => c == '.') = true := by
    rw [strData_append, List.any_append, hdot, Bool.or_true]
  have hcat_ne : (pySplitext f).1 ++ lookupMime (normCT ct) ≠ "" := by
    intro hEmpty
    apply he
    have hd := congrArg String.data hEmpty
    rw [strData_append] at hd
    have hE : (lookupMime (normCT ct)).data = [] := (List.append_eq_nil.1 hd).2
    cases hlk : lookupMime (normCT ct) with
    | mk l =>
      rw [hlk] at hE
      simp only at hE
      rw [hE]
  have hc1 : (decide (f ≠ "") && decide (lookupMime (normCT ct) ≠ "")) = true := by
    simp only [decide_eq_true hfne, decide_eq_true he, Bool.and_self]
  have hc2 : (decide (lowerStr (pySplitext f).2 ≠ lookupMime (normCT ct)) &&
      dynamicExts.contains (lowerStr (pySplitext f).2)) = true := by
    simp only [decide_eq_true hne, hdyn, Bool.and_self]
  have hc3 : ¬((decide ((pySplitext f).1 ++ lookupMime (normCT ct) = "") ||
      !((pySplitext f).1 ++ lookupMime (normCT ct)).data.any fun c => c == '.') = true) := by
    simp only [decide_eq_false hcat_ne, hcat_dot, Bool.not_true, Bool.or_self]
    exact Bool.false_ne_true
  simp only [resolveFilename]
  rw [if_pos hcd, hf]
  simp only [Option.getD_some]
  rw [if_neg hfne, if_pos hc1, if_pos hc2, if_neg hc3]

theorem resolveFilename_dynamic_ext_replaced_witness :
    filenameFromCD "attachment; filename=\"report.aspx\"" = some "report.aspx" ∧
    resolveFilename "attachment; filename=\"report.aspx\"" "application/pdf"
        "http://x.org/dl" 1 =
      sanitize_filename
        ((pySplitext "report.aspx").1 ++ lookupMime (normCT "application/pdf")) ∧
    resolveFilename "attachment; filename=\"report.aspx\"" "application/pdf"
        "http://x.org/dl" 1 = "report.pdf" :=
  ⟨by decide,
   resolveFilename_dynamic_ext_replaced _ _ "http://x.org/dl" 1 "report.aspx"
     (by decide) (by decide) (by decide) (by decide) (by decide) (by decide),
   by decide⟩

/-- The `while` loop of the collision handler returns the first free
candidate: if `k₀` is free, every smaller index from `counter` on is
taken, and the fuel covers the distance, the loop stops exactly at
`k₀`. -/
theorem findFreeName_finds (existing : List String) (base ext : String) :
    ∀ (fuel counter k₀ : Nat), counter ≤ k₀ → k₀ - counter < fuel →
      existing.contains (mkName base ext k₀) = false →
      (∀ j, counter ≤ j → j < k₀ → existing.contains (mkName base ext j) = true) →
      findFreeName existing base ext fuel counter = some (mkName base ext k₀) := by
  intro fuel
  induction fuel with
  | zero => intro counter k₀ h1 h2 _ _; omega
  | succ fuel ih =>
    intro counter k₀ h1 h2 hfree hmin
    rw [findFreeName]
    by_cases hc : existing.contains (mkName base ext counter) = true
    · rw [if_pos hc]
      have hlt : counter < k₀ := by
        rcases Nat.lt_or_ge counter k₀ with h | h
        · exact h
        · have hck : counter = k₀ := by omega
          rw [hck] at hc
          rw [hc] at hfree
          exact absurd hfree (by decide)
      exact ih (counter + 1) k₀ (by omega) (by omega) hfree
        (fun j hj1 hj2 => hmin j (by omega) hj2)
    · rw [if_neg hc]
      have hck : counter = k₀ := by
        by_contra hne2
        have hlt : counter < k₀ := by omega
        exact hc (hmin counter (Nat.le_refl _) hlt)
      rw [hck]

/-- C7: when the sanitized name collides with an existing path and `k₀`
is the first index (from 1) whose candidate `base_k₀ext` is not on disk —
such a `k₀` always lies within `existing.length + 1`, since the
candidates are pairwise distinct — the collision handler returns exactly
that candidate, and the colliding pre-existing path is never the returned
one (so the pre-existing file is not overwritten). -/
theorem resolveCollision_first_free (existing : List String) (filename : String) (k₀ : Nat)
    (hcoll : existing.contains filename = true)
    (h1 : 1 ≤ k₀) (hbound : k₀ ≤ existing.length + 1)
    (hfree : existing.contains
      (mkName (pySplitext filename).1 (pySplitext filename).2 k₀) = false)
    (hmin : ∀ j, 1 ≤ j → j < k₀ →
      existing.contains (mkName (pySplitext filename).1 (pySplitext filename).2 j) = true) :
    resolveCollision existing filename =
      some (mkName (pySplitext filename).1 (pySplitext filename).2 k₀) ∧
    mkName (pySplitext filename).1 (pySplitext filename).2 k₀ ∉ existing := by
  constructor
  · unfold resolveCollision
    rw [if_pos hcoll]
    exact findFreeName_finds existing _ _ (existing.length + 1) 1 k₀ h1 (by omega) hfree hmin
  · intro hm
    have hcontains : existing.contains
        (mkName (pySplitext filename).1 (pySplitext filename).2 k₀) = true :=
      List.elem_eq_true_of_mem hm
    rw [hcontains] at hfree
    exact absurd hfree (by decide)

theorem resolveCollision_first_free_witness :
    resolveCollision ["data.csv"] "data.csv" =
      some (mkName (pySplitext "data.csv").1 (pySplitext "data.csv").2 1) ∧
    mkName (pySplitext "data.csv").1 (pySplitext "data.csv").2 1 ∉ ["data.csv"] ∧
    mkName (pySplitext "data.csv").1 (pySplitext "data.csv").2 1 = "data_1.csv" ∧
    (download_files (some ["http://a/data.csv", "http://b/data.csv"]) csvFetch
        []).writtenFiles.map Prod.fst = ["data.csv", "data_1.csv"] := by
  have h := resolveCollision_first_free ["data.csv"] "data.csv" 1 (by decide) (by decide)
    (by decide) (by decide) (fun j hj1 hj2 => absurd hj2 (by omega))
  exact ⟨h.1, h.2, by decide, by decide⟩

/-- C8: a missing input file (`none`) or an input with no non-blank lines
is fatal: no file is written into the output directory and no statistics
are produced (the run never reaches the download loop). -/
theorem download_files_fatal_on_missing_or_empty
    (input : Option (List String)) (fetch : String → FetchResult) (pre : List String)
    (h : input = none ∨ ∃ lines, input = some lines ∧
      (lines.map pyStripStr).filter (fun l => l ≠ "") = []) :
    (download_files input fetch pre).writtenFiles = [] ∧
    (download_files input fetch pre).statsOf = none := by
  rcases h with rfl | ⟨lines, rfl, hurls⟩
  · exact ⟨rfl, rfl⟩
  · simp only [download_files]
    rw [hurls]
    exact ⟨rfl, rfl⟩

theorem download_files_fatal_witness :
    (download_files (some ["", "  "]) noopFetch []).writtenFiles = [] ∧
    (download_files (some ["", "  "]) noopFetch []).statsOf = none :=
  download_files_fatal_on_missing_or_empty _ noopFetch []
    (Or.inr ⟨["", "  "], rfl, by decide⟩)
